import Mathlib

/-!
Verification of `anti_afk.py` (anti-AFK mouse mover).

Shallow embedding conventions:
* Python floats are modelled as `ℚ`; screen coordinates are `ℤ`.
* The `random` module is an external, seeded, deterministic stream: an `Rng`
  carries an abstract stream `seq : ℕ → ℚ` of raw `random.random()` draws in
  `[0,1]` (captured by the predicate `InRange01`) together with a cursor.
  `random.uniform(a,b)` is `a + (b-a)*random()`, exactly CPython's formula.
  `random.randint(a,b)` is modelled as a single draw mapped uniformly onto
  `[a,b]`; CPython raises for `b < a`, the model is total there.
* The transcendental floating-point functions `math.sin`, `math.cos`,
  `math.hypot` and the constant `math.pi` are delegated to an abstract
  `Oracle` of pure functions; claims that rely on their mathematical
  properties take those properties as explicit hypotheses
  (`PythOracle`, `HypotSpec`, `o.sin 0 = 0`, ...).
* `pyautogui` is an external service: each call site emits an `Effect`
  and updates the modelled external world `Env` (cursor position, clock).
* `logging` output is modelled as a list of `LogEntry`.
* `time.time()` reads `Env.time`; `time.sleep(d)` and the blocking
  `moveTo(..., duration=d)` advance it by exactly `d`.
* Fallible code returns `Option`: `bezier_path` raises `ZeroDivisionError`
  in Python when `steps = 1`, so the model returns `none` there.
-/

namespace AntiAfk

/-- Abstract oracle for the `math` module's floating-point functions. -/
structure Oracle where
  sin : ℚ → ℚ
  cos : ℚ → ℚ
  hypot : ℚ → ℚ → ℚ
  pi : ℚ

/-- The oracle's `cos`/`sin` lie on the unit circle (true of real cosine and
sine; the float versions satisfy it up to rounding). -/
def PythOracle (o : Oracle) : Prop := ∀ θ : ℚ, (o.cos θ) ^ 2 + (o.sin θ) ^ 2 = 1

/-- The state of the `random` module: an abstract stream of raw
`random.random()` draws and a position in it. -/
structure Rng where
  seq : ℕ → ℚ
  pos : ℕ

/-- Draw one raw `random.random()` value. -/
def Rng.next (r : Rng) : ℚ × Rng := (r.seq r.pos, ⟨r.seq, r.pos + 1⟩)

/-- Skip `k` draws. -/
def Rng.advance (r : Rng) (k : ℕ) : Rng := ⟨r.seq, r.pos + k⟩

/-- All raw draws of the stream lie in `[0,1]`, as `random.random()`
guarantees. -/
def InRange01 (r : Rng) : Prop := ∀ n, 0 ≤ r.seq n ∧ r.seq n ≤ 1

theorem Rng.advance_advance (r : Rng) (a b : ℕ) :
    (r.advance a).advance b = r.advance (a + b) := by
  simp [Rng.advance, Nat.add_assoc]

theorem Rng.advance_zero (r : Rng) : r.advance 0 = r := rfl

theorem InRange01.advance {r : Rng} (h : InRange01 r) (k : ℕ) :
    InRange01 (r.advance k) := fun n => h n

theorem InRange01.next {r : Rng} (h : InRange01 r) :
    InRange01 r.next.2 := fun n => h n

/-- `rand_uniform(a, b)` (line 87-88): `random.uniform` is
`a + (b-a) * random()`. -/
def rand_uniform (a b : ℚ) (r : Rng) : ℚ × Rng :=
  let (u, r') := r.next
  (a + (b - a) * u, r')

theorem rand_uniform_mem {a b : ℚ} (hab : a ≤ b) {r : Rng} (hr : InRange01 r) :
    a ≤ (rand_uniform a b r).1 ∧ (rand_uniform a b r).1 ≤ b := by
  obtain ⟨h0, h1⟩ := hr r.pos
  constructor <;> simp only [rand_uniform, Rng.next] <;> nlinarith

theorem rand_uniform_rng (a b : ℚ) (r : Rng) :
    (rand_uniform a b r).2 = r.advance 1 := rfl

/-- `random.randint(a, b)`: one draw mapped onto the integers of `[a, b]`
(CPython raises `ValueError` when `b < a`; the model is total). -/
def randint (a b : ℤ) (r : Rng) : ℤ × Rng :=
  let (u, r') := r.next
  (a + min (b - a) ⌊u * ((b : ℚ) - (a : ℚ) + 1)⌋, r')

theorem randint_mem {a b : ℤ} (hab : a ≤ b) {r : Rng} (hr : InRange01 r) :
    a ≤ (randint a b r).1 ∧ (randint a b r).1 ≤ b := by
  obtain ⟨h0, h1⟩ := hr r.pos
  have hfl : (0 : ℤ) ≤ ⌊r.seq r.pos * ((b : ℚ) - (a : ℚ) + 1)⌋ := by
    apply Int.floor_nonneg.2
    have hba : (0 : ℚ) ≤ (b : ℚ) - (a : ℚ) + 1 := by
      have : (a : ℚ) ≤ (b : ℚ) := by exact_mod_cast hab
      linarith
    positivity
  constructor <;> simp only [randint, Rng.next]
  · have := le_min (by omega : (0:ℤ) ≤ b - a) hfl
    omega
  · omega

theorem randint_rng (a b : ℤ) (r : Rng) : (randint a b r).2 = r.advance 1 := rfl

/-- Python 3 `round` to an integer: nearest, ties to even. -/
def pyround (q : ℚ) : ℤ :=
  if q - (⌊q⌋ : ℚ) < 1/2 then ⌊q⌋
  else if 1/2 < q - (⌊q⌋ : ℚ) then ⌊q⌋ + 1
  else if ⌊q⌋ % 2 = 0 then ⌊q⌋ else ⌊q⌋ + 1

/-- Python `int()` on a float: truncation toward zero. -/
def pytrunc (q : ℚ) : ℤ := if 0 ≤ q then ⌊q⌋ else ⌈q⌉

theorem pyround_intCast (n : ℤ) : pyround (n : ℚ) = n := by
  simp [pyround]

theorem abs_pyround_sub_le (q : ℚ) : |(pyround q : ℚ) - q| ≤ 1/2 := by
  have h0 : (0 : ℚ) ≤ q - (⌊q⌋ : ℚ) := by
    have := Int.floor_le q; linarith
  have h1 : q - (⌊q⌋ : ℚ) < 1 := by
    have := Int.lt_floor_add_one q; linarith
  unfold pyround
  split_ifs <;> · push_cast; rw [abs_le]; constructor <;> linarith

theorem pytrunc_le_of_nonneg {q : ℚ} (h : 0 ≤ q) : (pytrunc q : ℚ) ≤ q := by
  simp only [pytrunc, if_pos h]; exact Int.floor_le q

theorem pytrunc_nonpos_of_neg {q : ℚ} (h : q < 0) : pytrunc q ≤ 0 := by
  simp only [pytrunc, if_neg (not_le.2 h)]
  exact Int.ceil_le.2 (by exact_mod_cast h.le)

/-- `max(lo, min(hi, v))`, the clamping idiom used throughout the source. -/
def clampI (lo hi v : ℤ) : ℤ := max lo (min hi v)

theorem le_clampI (lo hi v : ℤ) : lo ≤ clampI lo hi v := le_max_left _ _

theorem clampI_le {lo hi : ℤ} (h : lo ≤ hi) (v : ℤ) : clampI lo hi v ≤ hi :=
  max_le h (min_le_left _ _)

theorem clampI_eq_self {lo hi v : ℤ} (h1 : lo ≤ v) (h2 : v ≤ hi) :
    clampI lo hi v = v := by
  simp [clampI, max_eq_right, min_eq_right, h1, h2]

theorem abs_clampI_sub_le {lo hi c : ℤ} (h1 : lo ≤ c) (h2 : c ≤ hi) (v : ℤ) :
    |clampI lo hi v - c| ≤ |v - c| := by
  simp only [clampI]
  rcases le_total v hi with hv | hv
  · rcases le_total lo v with hl | hl
    · rw [min_eq_right hv, max_eq_right hl]
    · rw [min_eq_right hv, max_eq_left hl]
      rcases abs_cases (v - c) with ⟨he, hge⟩ | ⟨he, hge⟩ <;>
        rw [abs_sub_le_iff] <;> omega
  · rw [min_eq_left hv, max_eq_right (h1.trans h2)]
    rcases abs_cases (v - c) with ⟨he, hge⟩ | ⟨he, hge⟩ <;>
      rw [abs_sub_le_iff] <;> omega

/-- `Config` (lines 24-59): the flat configuration dataclass.
Floats are `ℚ`, pixel quantities are `ℤ`, defaults as in the source. -/
structure Config where
  min_sleep : ℚ := 3
  max_sleep : ℚ := 12
  move_duration_min : ℚ := 2/5
  move_duration_max : ℚ := 8/5
  margin : ℤ := 40
  click_probability : ℚ := 11/20
  right_click_probability : ℚ := 2/25
  scroll_probability : ℚ := 1/4
  scroll_amount_min : ℤ := 40
  scroll_amount_max : ℤ := 240
  dry_run : Bool := false
  seed : Option ℤ := none
  verbose : Bool := false
  min_move : ℤ := 8
  prompt_interval : Bool := false
  local_move : Bool := false
  move_radius : ℤ := 150
  click_interval_min : ℚ := 120
  click_interval_max : ℚ := 480
  scroll_interval_min : ℚ := 90
  scroll_interval_max : ℚ := 360
  double_click_probability : ℚ := 1/20
  pause_probability : ℚ := 3/20
  pause_duration_min : ℚ := 3/10
  pause_duration_max : ℚ := 5/2
  micro_move_probability : ℚ := 1/4
  micro_move_radius : ℤ := 15
  long_pause_probability : ℚ := 1/20
  long_pause_min : ℚ := 5
  long_pause_max : ℚ := 18
  centered : Bool := true
  center_fraction : ℚ := 4/5
  enable_hotkeys : Bool := true

/-- `State` (lines 61-84): the shared run state. The mutex only guards
accesses; in the single-threaded embedding it has no observable content. -/
structure RunState where
  running : Bool := true
  paused : Bool := false
  next_click_at : ℚ
  next_scroll_at : ℚ

/-- `State.toggle_pause` (lines 76-79). -/
def RunState.toggle_pause (st : RunState) : RunState :=
  { st with paused := !st.paused }

/-- `State.stop` (lines 81-84). -/
def RunState.stop (st : RunState) : RunState :=
  { st with running := false }

/-- External world visible through `pyautogui`: screen size, cursor
position, and the wall clock read by `time.time()`. -/
structure Env where
  width : ℤ
  height : ℤ
  posX : ℤ
  posY : ℤ
  time : ℚ

/-- One call into the external `pyautogui` actuation service. -/
inductive Effect
  | moveTo (x y : ℤ) (duration : ℚ)
  | moveRel (dx dy duration : ℚ)
  | click (rightButton : Bool)
  | scroll (amount : ℤ)
deriving DecidableEq

/-- `pyautogui.moveTo(x, y, duration=d)`: cursor lands on `(x, y)` and the
call blocks for its duration. -/
def Env.moveTo (e : Env) (x y : ℤ) (d : ℚ) : Env :=
  { e with posX := x, posY := y, time := e.time + d }

/-- `pyautogui.moveRel(dx, dy, duration=d)`: relative move by float offsets,
rounded to the pixel grid. -/
def Env.moveRel (e : Env) (dx dy d : ℚ) : Env :=
  { e with posX := e.posX + pyround dx, posY := e.posY + pyround dy,
           time := e.time + d }

/-- `time.sleep(d)`. -/
def Env.sleep (e : Env) (d : ℚ) : Env := { e with time := e.time + d }

/-- One `logging.info` record emitted by the modelled functions, carrying
the interpolated data of the corresponding format string. -/
inductive LogEntry
  | moveSkipped (sx sy tx ty : ℤ)
  | move (sx sy tx ty : ℤ) (duration : ℚ) (steps : ℕ)
  | microMove (sx sy : ℤ) (hops : ℤ)
  | click (rightButton : Bool) (clicks : ℕ)
  | scroll (amount : ℤ)
  | thinkPause (d : ℚ)
  | clickDeferred (d : ℚ)
  | scrollDeferred (d : ℚ)
  | sleepLog (d : ℚ) (iteration : ℕ)
  | longPause (d : ℚ)
deriving DecidableEq

/-- `State.schedule_next_click` (lines 70-71); `now` is the value of
`time.time()` at the call. -/
def schedule_next_click (cfg : Config) (now : ℚ) (st : RunState) (r : Rng) :
    RunState × Rng :=
  let (v, r') := rand_uniform cfg.click_interval_min cfg.click_interval_max r
  ({ st with next_click_at := now + v }, r')

/-- `State.schedule_next_scroll` (lines 73-74). -/
def schedule_next_scroll (cfg : Config) (now : ℚ) (st : RunState) (r : Rng) :
    RunState × Rng :=
  let (v, r') := rand_uniform cfg.scroll_interval_min cfg.scroll_interval_max r
  ({ st with next_scroll_at := now + v }, r')

/-- `dist` (lines 91-94): `math.hypot` of the coordinate differences. -/
def dist (o : Oracle) (a b : ℤ × ℤ) : ℚ :=
  o.hypot ((a.1 : ℚ) - (b.1 : ℚ)) ((a.2 : ℚ) - (b.2 : ℚ))

/-- Keys delivered by the external `pynput` key-event service.  Only the
keys named in the combos are distinguished; every other key is `other`. -/
inductive PKey
  | ctrl
  | alt
  | keyP
  | keyQ
  | other (code : ℕ)
deriving DecidableEq

/-- `COMBO_PAUSE` (line 355): `{Key.ctrl, Key.alt, 'p'}`. -/
def COMBO_PAUSE : Finset PKey := {PKey.ctrl, PKey.alt, PKey.keyP}

/-- `COMBO_QUIT` (line 356): `{Key.ctrl, Key.alt, 'q'}`. -/
def COMBO_QUIT : Finset PKey := {PKey.ctrl, PKey.alt, PKey.keyQ}

/-- A raw key event delivered to the listener callbacks. -/
inductive KEvent
  | press (k : PKey)
  | release (k : PKey)
deriving DecidableEq

/-- State of `keyboard_listener` (lines 354-372): the `current_keys` set,
the shared `RunState`, whether the listener is still installed (`on_press`
returning `False` stops it), and a ghost counter of `toggle_pause` calls. -/
structure ListenState where
  keys : Finset PKey
  rs : RunState
  alive : Bool
  pauseToggles : ℕ

/-- `on_press` (lines 359-365): add the key, then fire the pause combo
check, then the quit combo check (which stops the listener). -/
def on_press (st : ListenState) (k : PKey) : ListenState :=
  let keys := insert k st.keys
  let st := { st with keys := keys }
  let st :=
    if COMBO_PAUSE ⊆ keys then
      { st with rs := st.rs.toggle_pause, pauseToggles := st.pauseToggles + 1 }
    else st
  if COMBO_QUIT ⊆ keys then
    { st with rs := st.rs.stop, alive := false }
  else st

/-- `on_release` (lines 367-369). -/
def on_release (st : ListenState) (k : PKey) : ListenState :=
  { st with keys := st.keys.erase k }

/-- Deliver one event; a stopped listener receives no further callbacks. -/
def listen_step (st : ListenState) (e : KEvent) : ListenState :=
  if st.alive then
    match e with
    | KEvent.press k => on_press st k
    | KEvent.release k => on_release st k
  else st

/-- Deliver a sequence of key events to the listener. -/
def listen_run (es : List KEvent) (st : ListenState) : ListenState :=
  es.foldl listen_step st

/-- The listener's initial state over a given run state. -/
def listen_init (rs : RunState) : ListenState :=
  { keys := ∅, rs := rs, alive := true, pauseToggles := 0 }

/-- Exceptions that can surface from `action_loop` into `main`. -/
inductive PyExc
  | failSafe
  | keyboardInterrupt
  | other (code : ℕ)
deriving DecidableEq

/-- The `try/except/finally` of `main` (lines 513-520), over the outcome of
`action_loop`: `pyautogui.FailSafeException` and `KeyboardInterrupt` are
caught and swallowed, anything else re-raises after the `finally` block;
`state.stop()` runs unconditionally in `finally`. -/
def mainCatch (outcome : Except PyExc Unit) (st : RunState) :
    Except PyExc Unit × RunState :=
  match outcome with
  | Except.ok _ => (Except.ok (), st.stop)
  | Except.error PyExc.failSafe => (Except.ok (), st.stop)
  | Except.error PyExc.keyboardInterrupt => (Except.ok (), st.stop)
  | Except.error e => (Except.error e, st.stop)

/-- Strip leading whitespace, as in `str.strip`. -/
def trimChars (cs : List Char) : List Char :=
  ((cs.dropWhile Char.isWhitespace).reverse.dropWhile Char.isWhitespace).reverse

/-- Python `str.strip()`: drop leading and trailing whitespace. -/
def pyStrip (s : String) : String := String.mk (trimChars s.data)

/-- The separator normalization of line 450: `,` and `-` become spaces. -/
def normChar (c : Char) : Char := if c = ',' ∨ c = '-' then ' ' else c

/-- Python `str.split()` with no argument: split on whitespace runs,
dropping empty parts.  `acc` holds the current word, reversed. -/
def splitWsAcc : List Char → List Char → List (List Char)
  | [], acc => if acc = [] then [] else [acc.reverse]
  | c :: cs, acc =>
    if c.isWhitespace then
      if acc = [] then splitWsAcc cs []
      else acc.reverse :: splitWsAcc cs []
    else splitWsAcc cs (c :: acc)

/-- Tokenization of one prompt line (lines 450-451): strip the raw input,
normalize `,` and `-` to spaces, split on whitespace dropping empties. -/
def promptTokens (raw : String) : List String :=
  (splitWsAcc ((pyStrip raw).data.map normChar) []).map String.mk

/-- Outcome of processing one line of `prompt_for_interval`. -/
inductive PromptOut
  | ret (accepted : Bool) (minS maxS : ℚ)
  | again
deriving DecidableEq

/-- The `len(parts)` dispatch of `prompt_for_interval` (lines 452-472).
`pf` is the external `float()` parser: `none` models `ValueError`, which
the source catches and turns into a reprompt. -/
def promptParse (pf : String → Option ℚ) (parts : List String) : PromptOut :=
  if parts.length = 1 then
    match pf (parts.getD 0 "") with
    | none => PromptOut.again
    | some v =>
      if v ≤ 0 then PromptOut.again
      else PromptOut.ret true v v
  else if parts.length = 2 then
    match pf (parts.getD 0 ""), pf (parts.getD 1 "") with
    | some a, some b =>
      if a ≤ 0 ∨ b ≤ 0 then PromptOut.again
      else if a ≤ b then PromptOut.ret true a b
      else PromptOut.ret true b a
    | _, _ => PromptOut.again
  else PromptOut.again

/-- One pass of the `while True` body of `prompt_for_interval`
(lines 441-474).  `minS, maxS` are the current
`config.min_sleep/max_sleep`; empty stripped input keeps them. -/
def promptStep (pf : String → Option ℚ) (minS maxS : ℚ) (raw : String) :
    PromptOut :=
  if pyStrip raw = "" then PromptOut.ret false minS maxS
  else promptParse pf (promptTokens raw)

/-- `prompt_for_interval` (lines 430-474) over a finite input stream;
stream exhaustion is `EOFError`, which keeps the existing values.  Returns
whether a new value was accepted and the resulting sleep bounds. -/
def prompt_for_interval (pf : String → Option ℚ) (inputs : List String)
    (minS maxS : ℚ) : Bool × ℚ × ℚ :=
  match inputs with
  | [] => (false, minS, maxS)
  | ln :: rest =>
    match promptStep pf minS maxS ln with
    | PromptOut.ret acc lo hi => (acc, lo, hi)
    | PromptOut.again => prompt_for_interval pf rest minS maxS

/-- The `for _ in range(40)` retry loop of `choose_point`'s centered mode
(lines 131-139), by remaining tries; falling through returns the integer
screen center `(cx, cy)` (line 140). -/
def centeredTry (o : Oracle) (cfg : Config) (w h cx cy max_r : ℤ) :
    ℕ → Rng → (ℤ × ℤ) × Rng
  | 0, r => ((cx, cy), r)
  | n + 1, r =>
    let (angle, r1) := rand_uniform 0 (2 * o.pi) r
    let (rr, r2) := rand_uniform 0 (max_r : ℚ) r1
    let x := pyround ((cx : ℚ) + o.cos angle * rr)
    let y := pyround ((cy : ℚ) + o.sin angle * rr)
    let x := clampI cfg.margin (w - cfg.margin) x
    let y := clampI cfg.margin (h - cfg.margin) y
    if (x, y) ≠ (cx, cy) then ((x, y), r2)
    else centeredTry o cfg w h cx cy max_r n r2

/-- The `for _ in range(20)` retry loop of `choose_point`'s local mode
(lines 143-151), around the current cursor position `(cx, cy)`. -/
def localTry (o : Oracle) (cfg : Config) (w h cx cy : ℤ) :
    ℕ → Rng → Option ((ℤ × ℤ) × Rng) × Rng
  | 0, r => (none, r)
  | n + 1, r =>
    let (angle, r1) := rand_uniform 0 (2 * o.pi) r
    let (rr, r2) := rand_uniform 0 (cfg.move_radius : ℚ) r1
    let x := pyround ((cx : ℚ) + o.cos angle * rr)
    let y := pyround ((cy : ℚ) + o.sin angle * rr)
    let x := clampI cfg.margin (w - cfg.margin) x
    let y := clampI cfg.margin (h - cfg.margin) y
    if (x, y) ≠ (cx, cy) then (some ((x, y), r2), r2)
    else localTry o cfg w h cx cy n r2

/-- `choose_point` (lines 124-156). -/
def choose_point (o : Oracle) (cfg : Config) (env : Env) (r : Rng) :
    (ℤ × ℤ) × Rng :=
  let w := env.width
  let h := env.height
  if cfg.centered then
    let cx := Int.fdiv w 2
    let cy := Int.fdiv h 2
    let max_r0 := pytrunc (((min w h : ℤ) : ℚ) / 2 * cfg.center_fraction)
    let max_r := max 0 (max_r0 - cfg.margin)
    centeredTry o cfg w h cx cy max_r 40 r
  else if cfg.local_move then
    let cx := env.posX
    let cy := env.posY
    match localTry o cfg w h cx cy 20 r with
    | (some (p, _), r') => (p, r')
    | (none, r') =>
      ((clampI cfg.margin (w - cfg.margin) (cx + Int.fdiv cfg.move_radius 2),
        clampI cfg.margin (h - cfg.margin) cy), r')
  else
    let (x, r1) := randint cfg.margin (w - cfg.margin) r
    let (y, r2) := randint cfg.margin (h - cfg.margin) r1
    ((x, y), r2)

/-- The body of `bezier_path`'s sampling loop for one index `i`
(lines 167-175): Bezier point at `t = i / den`, jitter window
`0.8*sin(t*pi)^2`, 10% tremor amplification, two jitter draws, rounding. -/
def bezPoint (o : Oracle) (x0 y0 x1 y1 x2 y2 den : ℚ) (i : ℕ) (r : Rng) :
    (ℤ × ℤ) × Rng :=
  let t : ℚ := (i : ℚ) / den
  let bx := (1 - t) ^ 2 * x0 + 2 * (1 - t) * t * x1 + t ^ 2 * x2
  let yy := (1 - t) ^ 2 * y0 + 2 * (1 - t) * t * y1 + t ^ 2 * y2
  let js := 4/5 * (o.sin (t * o.pi)) ^ 2
  let (u, r1) := r.next
  let js := if u < 1/10 then js * (3/2) else js
  let (j1, r2) := rand_uniform (-3) 3 r1
  let bx := bx + j1 * js
  let (j2, r3) := rand_uniform (-3) 3 r2
  let yy := yy + j2 * js
  ((pyround bx, pyround yy), r3)

/-- `for i in range(steps)` of `bezier_path` (lines 165-175): `n` points
remaining, `i` the current index. -/
def bezLoop (o : Oracle) (x0 y0 x1 y1 x2 y2 den : ℚ) :
    ℕ → ℕ → Rng → List (ℤ × ℤ) × Rng
  | 0, _, r => ([], r)
  | n + 1, i, r =>
    let (p, r1) := bezPoint o x0 y0 x1 y1 x2 y2 den i r
    let (rest, r2) := bezLoop o x0 y0 x1 y1 x2 y2 den n (i + 1) r1
    (p :: rest, r2)

/-- `bezier_path` (lines 159-176).  With `steps = 1` the Python code
evaluates `0 / 0` and raises `ZeroDivisionError`, modelled as `none`;
with `steps <= 0` the loop body never runs and the result is empty. -/
def bezier_path (o : Oracle) (start pEnd : ℤ × ℤ) (steps : ℤ) (r : Rng) :
    Option (List (ℤ × ℤ) × Rng) :=
  if steps = 1 then none
  else
    let x0 : ℚ := (start.1 : ℚ)
    let y0 : ℚ := (start.2 : ℚ)
    let x2 : ℚ := (pEnd.1 : ℚ)
    let y2 : ℚ := (pEnd.2 : ℚ)
    let mx := (x0 + x2) / 2
    let my := (y0 + y2) / 2
    let (a1, r1) := rand_uniform (-(1/2)) (1/2) r
    let dx := (x2 - x0) * a1
    let (a2, r2) := rand_uniform (-(1/2)) (1/2) r1
    let dy := (y2 - y0) * a2
    let x1 := mx + dx
    let y1 := my + dy
    some (bezLoop o x0 y0 x1 y1 x2 y2 ((steps : ℚ) - 1) steps.toNat 0 r2)

/-- The path-walking loop of `perform_move` (lines 196-206): for each point
left, re-budget the remaining duration with a random speed variation and
issue one `moveTo`.  The source's `if steps_left <= 0: break` guard is
kept although it is unreachable (`steps_left = |remaining list| >= 1`). -/
def walkPath (duration startTime : ℚ) :
    List (ℤ × ℤ) → Env → Rng → List Effect × Env × Rng
  | [], env, r => ([], env, r)
  | (x, y) :: rest, env, r =>
    let elapsed := env.time - startTime
    let remaining := max 0 (duration - elapsed)
    let steps_left : ℤ := (rest.length : ℤ) + 1
    if steps_left ≤ 0 then ([], env, r)
    else
      let sleep_chunk := remaining / (steps_left : ℚ)
      let (sv, r1) := rand_uniform (4/5) (6/5) r
      let chunk := max (1/1000) (sleep_chunk * sv)
      let env1 := env.moveTo x y chunk
      let (efs, env2, r2) := walkPath duration startTime rest env1 r1
      (Effect.moveTo x y chunk :: efs, env2, r2)

/-- `perform_move` (lines 179-206).  Propagates `bezier_path`'s possible
failure (`none`), though its call sites always pass `steps >= 8`. -/
def perform_move (o : Oracle) (cfg : Config) (target : ℤ × ℤ) (duration : ℚ)
    (env : Env) (r : Rng) :
    Option (List LogEntry × List Effect × Env × Rng) :=
  let start_pos := (env.posX, env.posY)
  if dist o start_pos target < (cfg.min_move : ℚ) then
    if cfg.dry_run then
      some ([LogEntry.moveSkipped start_pos.1 start_pos.2 target.1 target.2],
            [], env, r)
    else
      let (dx, r1) := randint (-cfg.min_move) cfg.min_move r
      let jitter_x := start_pos.1 + dx
      let (dy, r2) := randint (-cfg.min_move) cfg.min_move r1
      let jitter_y := start_pos.2 + dy
      some ([], [Effect.moveTo jitter_x jitter_y (1/20)],
            env.moveTo jitter_x jitter_y (1/20), r2)
  else
    let (sf, r1) := rand_uniform 40 80 r
    let steps := max 8 (pytrunc (duration * sf))
    match bezier_path o start_pos target steps r1 with
    | none => none
    | some (path, r2) =>
      if cfg.dry_run then
        some ([LogEntry.move start_pos.1 start_pos.2 target.1 target.2
                 duration path.length], [], env, r2)
      else
        let start_time := env.time
        let (efs, env', r3) := walkPath duration start_time path env r2
        some ([], efs, env', r3)

/-- The hop loop of `perform_micro_move` (lines 216-223): `current` is the
position read once before the loop; `idx` counts up to `hops`. -/
def microHops (o : Oracle) (cfg : Config) (cx cy hops : ℤ) :
    ℕ → ℤ → Env → Rng → List Effect × Env × Rng
  | 0, _, env, r => ([], env, r)
  | n + 1, idx, env, r =>
    let (angle, r1) := rand_uniform 0 (2 * o.pi) r
    let (rr, r2) := rand_uniform 2 (cfg.micro_move_radius : ℚ) r1
    let nx := pyround ((cx : ℚ) + o.cos angle * rr)
    let ny := pyround ((cy : ℚ) + o.sin angle * rr)
    let (d, r3) := rand_uniform (1/20) (9/50) r2
    let env1 := env.moveTo nx ny d
    let (u, r4) := r3.next
    let (env2, r5) :=
      if u < 7/20 ∧ idx < hops - 1 then
        let (sd, r') := rand_uniform (1/20) (1/5) r4
        (env1.sleep sd, r')
      else (env1, r4)
    let (efs, env3, r6) := microHops o cfg cx cy hops n (idx + 1) env2 r5
    (Effect.moveTo nx ny d :: efs, env3, r6)

/-- `perform_micro_move` (lines 209-223). -/
def perform_micro_move (o : Oracle) (cfg : Config) (env : Env) (r : Rng) :
    List LogEntry × List Effect × Env × Rng :=
  let cx := env.posX
  let cy := env.posY
  let (hops, r1) := randint 2 4 r
  if cfg.dry_run then
    ([LogEntry.microMove cx cy hops], [], env, r1)
  else
    let (efs, env', r2) := microHops o cfg cx cy hops hops.toNat 0 env r1
    ([], efs, env', r2)

/-- `maybe_click` (lines 226-251). -/
def maybe_click (cfg : Config) (env : Env) (r : Rng) :
    List LogEntry × List Effect × Env × Rng :=
  let (u1, r1) := r.next
  let rightB := u1 < cfg.right_click_probability
  let (u2, r2) := r1.next
  let is_double := u2 < cfg.double_click_probability
  let clicks : ℕ := if is_double then 2 else 1
  if cfg.dry_run then
    ([LogEntry.click rightB clicks], [], env, r2)
  else
    let (u3, r3) := r2.next
    let (preEfs, env1, r4) :=
      if u3 < 3/10 then
        let (mx, ra) := rand_uniform (-5) 5 r3
        let (my, rb) := rand_uniform (-5) 5 ra
        let (md, rc) := rand_uniform (1/25) (3/25) rb
        ([Effect.moveRel mx my md], env.moveRel mx my md, rc)
      else ([], env, r3)
    let (clickEfs, env2, r5) :=
      if clicks = 1 then ([Effect.click rightB], env1, r4)
      else
        let (sd, ra) := rand_uniform (2/25) (3/20) r4
        ([Effect.click rightB, Effect.click rightB], env1.sleep sd, ra)
    let (u4, r6) := r5.next
    let (postEfs, env3, r7) :=
      if u4 < 1/4 then
        let (mx, ra) := rand_uniform (-6) 6 r6
        let (my, rb) := rand_uniform (-4) 4 ra
        let (md, rc) := rand_uniform (1/20) (7/50) rb
        ([Effect.moveRel mx my md], env2.moveRel mx my md, rc)
      else ([], env2, r6)
    ([], preEfs ++ clickEfs ++ postEfs, env3, r7)

/-- The burst loop of `maybe_scroll` (lines 268-271): scroll `per`, then
sleep briefly unless this was the last burst. -/
def scrollBurst (per num : ℤ) : ℕ → ℤ → Env → Rng → List Effect × Env × Rng
  | 0, _, env, r => ([], env, r)
  | n + 1, i, env, r =>
    let (env1, r1) :=
      if i < num - 1 then
        let (sd, r') := rand_uniform (1/20) (3/20) r
        (env.sleep sd, r')
      else (env, r)
    let (efs, env2, r2) := scrollBurst per num n (i + 1) env1 r1
    (Effect.scroll per :: efs, env2, r2)

/-- The single-scroll arm of `maybe_scroll` (lines 272-277): a 25% chance
of a tiny hover move before the scroll. -/
def scrollSingle (scroll_val : ℤ) (env : Env) (r : Rng) :
    List Effect × Env × Rng :=
  let (u3, r1) := r.next
  if u3 < 1/4 then
    let (mx, ra) := rand_uniform (-4) 4 r1
    let (my, rb) := rand_uniform (-4) 4 ra
    let (md, rc) := rand_uniform (1/25) (1/10) rb
    ([Effect.moveRel mx my md, Effect.scroll scroll_val],
     env.moveRel mx my md, rc)
  else ([Effect.scroll scroll_val], env, r1)

/-- `maybe_scroll` (lines 254-284). -/
def maybe_scroll (cfg : Config) (env : Env) (r : Rng) :
    List LogEntry × List Effect × Env × Rng :=
  let (amt, r1) := randint cfg.scroll_amount_min cfg.scroll_amount_max r
  let (u1, r2) := r1.next
  let direction : ℤ := if u1 < 1/2 then -1 else 1
  let scroll_val := direction * amt
  if cfg.dry_run then
    ([LogEntry.scroll scroll_val], [], env, r2)
  else
    let (mainEfs, env1, r3) :=
      if 100 < |scroll_val| then
        let (u2, ra) := r2.next
        if u2 < 2/5 then
          let (num, rb) := randint 2 3 ra
          let per := Int.fdiv scroll_val num
          scrollBurst per num num.toNat 0 env rb
        else
          scrollSingle scroll_val env ra
      else
        scrollSingle scroll_val env r2
    let (u5, r4) := r3.next
    if u5 < 1/5 then
      let (cf, r5) := rand_uniform (-(3/10)) (-(1/10)) r4
      let correction := pytrunc ((scroll_val : ℚ) * cf)
      if correction ≠ 0 then
        let (sd, r6) := rand_uniform (1/20) (1/5) r5
        ([], mainEfs ++ [Effect.scroll correction], env1.sleep sd, r6)
      else ([], mainEfs, env1, r5)
    else ([], mainEfs, env1, r4)

/-- The scheduled-click/scroll, sleep and long-pause tail of one
`action_loop` iteration (lines 319-350).  `now` is read once (line 319)
and used for both due-checks and deferrals; rescheduling reads the clock
afresh. -/
def action_tail (cfg : Config) (st : RunState) (env : Env) (r : Rng)
    (iteration : ℕ) : List LogEntry × List Effect × RunState × Env × Rng :=
  let now := env.time
  let (lgC, efC, st1, env1, r1) :=
    if st.next_click_at ≤ now then
      let (u, ra) := r.next
      if u < 1/4 then
        let (delay, rb) := rand_uniform 6 22 ra
        ((if cfg.verbose || cfg.dry_run then [LogEntry.clickDeferred delay]
          else []),
         [], { st with next_click_at := now + delay }, env, rb)
      else
        let (lg, ef, env', rb) := maybe_click cfg env ra
        let (st', rc) := schedule_next_click cfg env'.time st rb
        (lg, ef, st', env', rc)
    else ([], [], st, env, r)
  let (lgS, efS, st2, env2, r2) :=
    if st1.next_scroll_at ≤ now then
      let (u, ra) := r1.next
      if u < 3/10 then
        let (delay, rb) := rand_uniform 5 18 ra
        ((if cfg.verbose || cfg.dry_run then [LogEntry.scrollDeferred delay]
          else []),
         [], { st1 with next_scroll_at := now + delay }, env1, rb)
      else
        let (lg, ef, env', rb) := maybe_scroll cfg env1 ra
        let (st', rc) := schedule_next_scroll cfg env'.time st1 rb
        (lg, ef, st', env', rc)
    else ([], [], st1, env1, r1)
  let (sleep_time, r3) := rand_uniform cfg.min_sleep cfg.max_sleep r2
  let lgSl := if cfg.verbose || cfg.dry_run
    then [LogEntry.sleepLog sleep_time iteration] else []
  let env3 := env2.sleep sleep_time
  let (u, r4) := r3.next
  let (lgL, env4, r5) :=
    if u < cfg.long_pause_probability then
      let (lp, ra) := rand_uniform cfg.long_pause_min cfg.long_pause_max r4
      ((if cfg.verbose || cfg.dry_run then [LogEntry.longPause lp] else []),
       env3.sleep lp, ra)
    else ([], env3, r4)
  (lgC ++ lgS ++ lgSl ++ lgL, efC ++ efS, st2, env4, r5)

/-- One active iteration of `action_loop` (lines 300-350): optional
thinking pause, then micro-move or full move, then the scheduled tail. -/
def action_iter (o : Oracle) (cfg : Config) (st : RunState) (env : Env)
    (r : Rng) (iteration : ℕ) :
    Option (List LogEntry × List Effect × RunState × Env × Rng) :=
  let (u1, r0) := r.next
  let (lg1, env1, rA) :=
    if u1 < cfg.pause_probability then
      let (tp, ra) :=
        rand_uniform cfg.pause_duration_min cfg.pause_duration_max r0
      ((if cfg.verbose || cfg.dry_run then [LogEntry.thinkPause tp] else []),
       env.sleep tp, ra)
    else ([], env, r0)
  let (u2, rB) := rA.next
  if u2 < cfg.micro_move_probability then
    let (lgM, efM, envM, rM) := perform_micro_move o cfg env1 rB
    let (lgT, efT, st', envT, rT) := action_tail cfg st envM rM iteration
    some (lg1 ++ lgM ++ lgT, efM ++ efT, st', envT, rT)
  else
    let (target, rC) := choose_point o cfg env1 rB
    let (mdur, rD) :=
      rand_uniform cfg.move_duration_min cfg.move_duration_max rC
    match perform_move o cfg target mdur env1 rD with
    | none => none
    | some (lgM, efM, envM, rM) =>
      let (lgT, efT, st', envT, rT) := action_tail cfg st envM rM iteration
      some (lg1 ++ lgM ++ lgT, efM ++ efT, st', envT, rT)

/-- The `while True` loop of `action_loop` (lines 292-350) observed for a
finite number of loop passes (`fuel`).  A pass with `running = false`
exits; a paused pass sleeps 0.5 s and does not count as an iteration. -/
def action_loopN (o : Oracle) (cfg : Config) :
    ℕ → RunState → Env → Rng → ℕ →
    Option (List LogEntry × List Effect × RunState × Env × Rng)
  | 0, st, env, r, _ => some ([], [], st, env, r)
  | fuel + 1, st, env, r, iteration =>
    if st.running = false then some ([], [], st, env, r)
    else if st.paused = true then
      action_loopN o cfg fuel st (env.sleep (1/2)) r iteration
    else
      match action_iter o cfg st env r (iteration + 1) with
      | none => none
      | some (lg, ef, st', env', r') =>
        match action_loopN o cfg fuel st' env' r' (iteration + 1) with
        | none => none
        | some (lgs, efs, st2, env2, r2) =>
          some (lg ++ lgs, ef ++ efs, st2, env2, r2)

/-- `action_loop` entry (lines 287-291): schedule the first click and
scroll, then run the loop. -/
def action_loop_run (o : Oracle) (cfg : Config) (st : RunState) (env : Env)
    (r : Rng) (fuel : ℕ) :
    Option (List LogEntry × List Effect × RunState × Env × Rng) :=
  let (st1, r1) := schedule_next_click cfg env.time st r
  let (st2, r2) := schedule_next_scroll cfg env.time st1 r1
  action_loopN o cfg fuel st2 env r2 0

/-- The logged output of a run started from a raw `random.random()` stream
(as installed by `random.seed`, line 487). -/
def run_logs (o : Oracle) (cfg : Config) (st : RunState) (env : Env)
    (stream : ℕ → ℚ) (fuel : ℕ) : Option (List LogEntry) :=
  (action_loop_run o cfg st env ⟨stream, 0⟩ fuel).map (fun x => x.1)

/-- Helper: `bezier_path` succeeds whenever `steps` is not 1. -/
theorem bezier_path_isSome (o : Oracle) (s e : ℤ × ℤ) {steps : ℤ}
    (h : steps ≠ 1) (r : Rng) :
    ∃ pr, bezier_path o s e steps r = some pr := by
  unfold bezier_path
  rw [if_neg h]
  exact ⟨_, rfl⟩

/-- Trivial instantiation of the math oracle, used by concrete witnesses. -/
def oTriv : Oracle := ⟨fun _ => 0, fun _ => 0, fun _ _ => 0, 0⟩

/-- Constant raw random stream 1/2, used by concrete witnesses. -/
def rngHalf : Rng := ⟨fun _ => 1/2, 0⟩

theorem rngHalf_mem : InRange01 rngHalf := fun _ => by norm_num [rngHalf]

/-- C7: after `schedule_next_click`, `next_click_at` lies in
`[now + click_interval_min, now + click_interval_max]` and is strictly in
the future, provided `0 < click_interval_min <= click_interval_max`; and
symmetrically for `schedule_next_scroll` and `next_scroll_at`. -/
theorem C7_schedule_bounds (cfg : Config) (now : ℚ) (st : RunState) (r : Rng)
    (hr : InRange01 r)
    (hc1 : 0 < cfg.click_interval_min)
    (hc2 : cfg.click_interval_min ≤ cfg.click_interval_max)
    (hs1 : 0 < cfg.scroll_interval_min)
    (hs2 : cfg.scroll_interval_min ≤ cfg.scroll_interval_max) :
    (now + cfg.click_interval_min ≤
        (schedule_next_click cfg now st r).1.next_click_at ∧
      (schedule_next_click cfg now st r).1.next_click_at ≤
        now + cfg.click_interval_max ∧
      now < (schedule_next_click cfg now st r).1.next_click_at) ∧
    (now + cfg.scroll_interval_min ≤
        (schedule_next_scroll cfg now st r).1.next_scroll_at ∧
      (schedule_next_scroll cfg now st r).1.next_scroll_at ≤
        now + cfg.scroll_interval_max ∧
      now < (schedule_next_scroll cfg now st r).1.next_scroll_at) := by
  obtain ⟨hcl, hcu⟩ := rand_uniform_mem hc2 hr
  obtain ⟨hsl, hsu⟩ := rand_uniform_mem hs2 hr
  have hck : (schedule_next_click cfg now st r).1.next_click_at =
      now + (rand_uniform cfg.click_interval_min cfg.click_interval_max r).1 :=
    rfl
  have hsk : (schedule_next_scroll cfg now st r).1.next_scroll_at =
      now + (rand_uniform cfg.scroll_interval_min cfg.scroll_interval_max r).1 :=
    rfl
  rw [hck, hsk]
  exact ⟨⟨by linarith, by linarith, by linarith⟩,
         ⟨by linarith, by linarith, by linarith⟩⟩

/-- C7 witness: the default intervals at `now = 0` with the constant-1/2
stream. -/
theorem C7_schedule_bounds_witness :
    ((0 : ℚ) + (120 : ℚ) ≤
        (schedule_next_click {} 0 { next_click_at := 0, next_scroll_at := 0 }
            rngHalf).1.next_click_at ∧
      (schedule_next_click {} 0 { next_click_at := 0, next_scroll_at := 0 }
            rngHalf).1.next_click_at ≤ (0 : ℚ) + (480 : ℚ) ∧
      (0 : ℚ) < (schedule_next_click {} 0
            { next_click_at := 0, next_scroll_at := 0 }
            rngHalf).1.next_click_at) ∧
    ((0 : ℚ) + (90 : ℚ) ≤
        (schedule_next_scroll {} 0 { next_click_at := 0, next_scroll_at := 0 }
            rngHalf).1.next_scroll_at ∧
      (schedule_next_scroll {} 0 { next_click_at := 0, next_scroll_at := 0 }
            rngHalf).1.next_scroll_at ≤ (0 : ℚ) + (360 : ℚ) ∧
      (0 : ℚ) < (schedule_next_scroll {} 0
            { next_click_at := 0, next_scroll_at := 0 }
            rngHalf).1.next_scroll_at) :=
  C7_schedule_bounds {} 0 { next_click_at := 0, next_scroll_at := 0 } rngHalf
    rngHalf_mem (by norm_num) (by norm_num) (by norm_num) (by norm_num)

/-- C8: at the top level of `main`, exactly the fail-safe abort and the
keyboard interrupt are caught, both leading to shutdown via
`RunState.stop()`; any other exception propagates (after the `finally`
stop). -/
theorem C8_top_level_exceptions (st : RunState) :
    mainCatch (Except.ok ()) st = (Except.ok (), st.stop) ∧
    mainCatch (Except.error PyExc.failSafe) st = (Except.ok (), st.stop) ∧
    mainCatch (Except.error PyExc.keyboardInterrupt) st =
      (Except.ok (), st.stop) ∧
    st.stop.running = false ∧
    ∀ n : ℕ, mainCatch (Except.error (PyExc.other n)) st =
      (Except.error (PyExc.other n), st.stop) :=
  ⟨rfl, rfl, rfl, rfl, fun _ => rfl⟩

/-- C9: `bezier_path` is undefined (raises `ZeroDivisionError`) at
`steps = 1`, and the `steps` value `max(8, int(duration * uniform(40,80)))`
computed by `perform_move` is always at least 8, so `bezier_path` succeeds
on every call `perform_move` makes. -/
theorem C9_no_division_by_zero (o : Oracle) (s e : ℤ × ℤ) (duration : ℚ)
    (r : Rng) :
    bezier_path o s e 1 r = none ∧
    8 ≤ max 8 (pytrunc (duration * (rand_uniform 40 80 r).1)) ∧
    (bezier_path o s e (max 8 (pytrunc (duration * (rand_uniform 40 80 r).1)))
        (rand_uniform 40 80 r).2).isSome = true := by
  refine ⟨by simp [bezier_path], le_max_left _ _, ?_⟩
  have h : max 8 (pytrunc (duration * (rand_uniform 40 80 r).1)) ≠ 1 := by
    have := le_max_left 8 (pytrunc (duration * (rand_uniform 40 80 r).1))
    omega
  simp only [bezier_path, if_neg h, Option.isSome_some]

/-- C1: with `dry_run = true`, each of `perform_move`,
`perform_micro_move`, `maybe_click` and `maybe_scroll` issues no external
`pyautogui` call, leaves the external cursor/clock state unchanged, and
emits exactly one log entry describing the intended action. -/
theorem C1_dry_run_frame (o : Oracle) (cfg : Config) (env : Env) (r : Rng)
    (target : ℤ × ℤ) (duration : ℚ) (hdry : cfg.dry_run = true) :
    (∃ lg r', perform_move o cfg target duration env r =
      some ([lg], [], env, r')) ∧
    (∃ lg r', perform_micro_move o cfg env r = ([lg], [], env, r')) ∧
    (∃ lg r', maybe_click cfg env r = ([lg], [], env, r')) ∧
    (∃ lg r', maybe_scroll cfg env r = ([lg], [], env, r')) := by
  refine ⟨?_, ?_, ?_, ?_⟩
  · by_cases hd : dist o (env.posX, env.posY) target < (cfg.min_move : ℚ)
    · exact ⟨_, _, by
        unfold perform_move
        dsimp only []
        rw [if_pos hd, hdry]
        exact if_pos rfl⟩
    · have hne : max 8 (pytrunc (duration * (rand_uniform 40 80 r).1)) ≠ 1 := by
        have := le_max_left 8 (pytrunc (duration * (rand_uniform 40 80 r).1))
        omega
      obtain ⟨⟨path, r2⟩, hbez⟩ := bezier_path_isSome o (env.posX, env.posY)
        target hne ((rand_uniform 40 80 r).2)
      exact ⟨_, _, by
        unfold perform_move
        dsimp only []
        rw [if_neg hd, hbez]
        dsimp only []
        rw [hdry]
        exact if_pos rfl⟩
  · exact ⟨_, _, by
      unfold perform_micro_move
      dsimp only []
      rw [hdry]
      exact if_pos rfl⟩
  · exact ⟨_, _, by
      unfold maybe_click
      dsimp only []
      rw [hdry]
      exact if_pos rfl⟩
  · exact ⟨_, _, by
      unfold maybe_scroll
      dsimp only []
      rw [hdry]
      exact if_pos rfl⟩

/-- C1 witness: a concrete dry-run configuration, environment and stream. -/
theorem C1_dry_run_frame_witness :
    (∃ lg r', perform_move oTriv { dry_run := true } (100, 100) 1
      ⟨1920, 1080, 960, 540, 0⟩ rngHalf = some ([lg], [], ⟨1920, 1080, 960, 540, 0⟩, r')) ∧
    (∃ lg r', perform_micro_move oTriv { dry_run := true }
      ⟨1920, 1080, 960, 540, 0⟩ rngHalf = ([lg], [], ⟨1920, 1080, 960, 540, 0⟩, r')) ∧
    (∃ lg r', maybe_click { dry_run := true }
      ⟨1920, 1080, 960, 540, 0⟩ rngHalf = ([lg], [], ⟨1920, 1080, 960, 540, 0⟩, r')) ∧
    (∃ lg r', maybe_scroll { dry_run := true }
      ⟨1920, 1080, 960, 540, 0⟩ rngHalf = ([lg], [], ⟨1920, 1080, 960, 540, 0⟩, r')) :=
  C1_dry_run_frame oTriv { dry_run := true } ⟨1920, 1080, 960, 540, 0⟩ rngHalf
    (100, 100) 1 rfl

/-- C2 counterexample: with `ctrl` and `alt` held, a second press event of
`p` (an OS key repeat) satisfies the combo-subset check again and toggles
`paused` a second time; the claim says the toggle fires only on the press
that first completes the combo. -/
theorem C2_counterexample :
    (listen_run [KEvent.press PKey.ctrl, KEvent.press PKey.alt,
        KEvent.press PKey.keyP, KEvent.press PKey.keyP]
      (listen_init { next_click_at := 0, next_scroll_at := 0 })).pauseToggles
      = 2 ∧
    ¬ ((listen_run [KEvent.press PKey.ctrl, KEvent.press PKey.alt,
        KEvent.press PKey.keyP, KEvent.press PKey.keyP]
      (listen_init { next_click_at := 0, next_scroll_at := 0 })).pauseToggles
      ≤ 1) :=
  ⟨by decide, by decide⟩

/-- C2 amended: `paused` toggles only in response to press events (never on
release, never between events), and a press event delivered to the live
listener toggles it exactly once precisely when the pause combo is
contained in the pressed-key set after adding the key — so each repeated
press of a held combo key re-toggles, once per event. -/
theorem C2_toggle_exactly_per_press (st : ListenState) (k : PKey) :
    (listen_step st (KEvent.release k)).pauseToggles = st.pauseToggles ∧
    (listen_step st (KEvent.press k)).pauseToggles =
      (if st.alive = true ∧ COMBO_PAUSE ⊆ insert k st.keys
       then st.pauseToggles + 1 else st.pauseToggles) := by
  constructor
  · cases h : st.alive <;> simp [listen_step, on_release, h]
  · cases h : st.alive
    · simp [listen_step, on_press, h]
    · simp only [listen_step, on_press, h, if_true, if_false,
        Bool.false_eq_true, true_and, false_and]
      split_ifs <;> simp_all

/-- C3: with the environment (screen size, initial cursor position, start
time) fixed, a dry run of 5 iterations of the action loop produces log
output that is a function of the seeded random stream alone: any two
stream implementations that agree on the stream for seed 42 produce
identical log sequences.  (Real time is modelled as advancing exactly by
the slept durations.) -/
theorem C3_seed_determinism (o : Oracle) (cfg : Config) (st : RunState)
    (env : Env) (stream1 stream2 : ℤ → ℕ → ℚ)
    (_hdry : cfg.dry_run = true)
    (hagree : ∀ n, stream1 42 n = stream2 42 n) :
    run_logs o cfg st env (stream1 42) 5 =
      run_logs o cfg st env (stream2 42) 5 := by
  have h : stream1 42 = stream2 42 := funext hagree
  rw [h]

/-- Named constant seeded streams for the C3 witness. -/
def streamA : ℤ → ℕ → ℚ := fun _ _ => 1/2

/-- A second, definitionally separate copy of the stream. -/
def streamB : ℤ → ℕ → ℚ := fun _ _ => 1/2

/-- C3 witness: a concrete dry-run configuration and environment. -/
theorem C3_seed_determinism_witness :
    run_logs oTriv { dry_run := true }
        { next_click_at := 0, next_scroll_at := 0 }
        ⟨1920, 1080, 960, 540, 0⟩ (streamA 42) 5 =
      run_logs oTriv { dry_run := true }
        { next_click_at := 0, next_scroll_at := 0 }
        ⟨1920, 1080, 960, 540, 0⟩ (streamB 42) 5 :=
  C3_seed_determinism oTriv { dry_run := true }
    { next_click_at := 0, next_scroll_at := 0 }
    ⟨1920, 1080, 960, 540, 0⟩ streamA streamB rfl (fun _ => rfl)

/-- C6: when the Euclidean distance from the current cursor position to
the target is strictly below `min_move`, `perform_move` performs only the
fallback — a dry-run skip log, or a single tiny jitter `moveTo` whose
per-axis offset is at most `min_move` — and never builds or walks a
Bezier path.  `math.hypot` being the nonnegative Euclidean norm at the
point in question is taken as hypotheses `hpos`/`hsq` on the oracle. -/
theorem C6_min_move_fallback (o : Oracle) (cfg : Config) (env : Env)
    (r : Rng) (target : ℤ × ℤ) (duration : ℚ) (hr : InRange01 r)
    (hmm : 0 ≤ cfg.min_move)
    (hpos : 0 ≤ dist o (env.posX, env.posY) target)
    (hsq : dist o (env.posX, env.posY) target ^ 2 =
      ((env.posX : ℚ) - (target.1 : ℚ)) ^ 2 +
        ((env.posY : ℚ) - (target.2 : ℚ)) ^ 2)
    (hclose : ((env.posX : ℚ) - (target.1 : ℚ)) ^ 2 +
        ((env.posY : ℚ) - (target.2 : ℚ)) ^ 2 < (cfg.min_move : ℚ) ^ 2) :
    (cfg.dry_run = true →
      perform_move o cfg target duration env r =
        some ([LogEntry.moveSkipped env.posX env.posY target.1 target.2],
          [], env, r)) ∧
    (cfg.dry_run = false →
      ∃ jx jy r',
        perform_move o cfg target duration env r =
          some ([], [Effect.moveTo jx jy (1/20)],
            env.moveTo jx jy (1/20), r') ∧
        |jx - env.posX| ≤ cfg.min_move ∧ |jy - env.posY| ≤ cfg.min_move) := by
  have hmmq : (0 : ℚ) ≤ (cfg.min_move : ℚ) := by exact_mod_cast hmm
  have hd : dist o (env.posX, env.posY) target < (cfg.min_move : ℚ) := by
    nlinarith [hsq, hpos, hclose]
  have hr2 : InRange01 ((randint (-cfg.min_move) cfg.min_move r).2) := by
    rw [randint_rng]
    exact hr.advance 1
  constructor
  · intro hdry
    unfold perform_move
    dsimp only []
    rw [if_pos hd, hdry]
    exact if_pos rfl
  · intro hdry
    obtain ⟨hx1, hx2⟩ := randint_mem (by omega : -cfg.min_move ≤ cfg.min_move) hr
    obtain ⟨hy1, hy2⟩ :=
      randint_mem (by omega : -cfg.min_move ≤ cfg.min_move) hr2
    refine ⟨env.posX + (randint (-cfg.min_move) cfg.min_move r).1,
      env.posY + (randint (-cfg.min_move) cfg.min_move
        ((randint (-cfg.min_move) cfg.min_move r).2)).1,
      (randint (-cfg.min_move) cfg.min_move
        ((randint (-cfg.min_move) cfg.min_move r).2)).2, ?_, ?_, ?_⟩
    · unfold perform_move
      dsimp only []
      rw [if_pos hd, hdry]
      exact if_neg Bool.false_ne_true
    · rw [add_sub_cancel_left]
      exact abs_le.2 ⟨by omega, hx2⟩
    · rw [add_sub_cancel_left]
      exact abs_le.2 ⟨by omega, hy2⟩

/-- Oracle for the C6 witness: `hypot` answers 5, the Euclidean norm of
the concrete offset `(-3, -4)` used there. -/
def oFive : Oracle := ⟨fun _ => 0, fun _ => 0, fun _ _ => 5, 0⟩

/-- C6 witness: cursor at the origin, target `(3, 4)` at distance 5, with
`min_move = 8` and a dry-run configuration. -/
theorem C6_min_move_fallback_witness :
    (({ dry_run := true } : Config).dry_run = true →
      perform_move oFive { dry_run := true } (3, 4) 1 ⟨1920, 1080, 0, 0, 0⟩
          rngHalf =
        some ([LogEntry.moveSkipped 0 0 3 4], [], ⟨1920, 1080, 0, 0, 0⟩,
          rngHalf)) ∧
    (({ dry_run := true } : Config).dry_run = false →
      ∃ jx jy r',
        perform_move oFive { dry_run := true } (3, 4) 1 ⟨1920, 1080, 0, 0, 0⟩
            rngHalf =
          some ([], [Effect.moveTo jx jy (1/20)],
            Env.moveTo ⟨1920, 1080, 0, 0, 0⟩ jx jy (1/20), r') ∧
        |jx - (0 : ℤ)| ≤ 8 ∧ |jy - (0 : ℤ)| ≤ 8) :=
  C6_min_move_fallback oFive { dry_run := true } ⟨1920, 1080, 0, 0, 0⟩
    rngHalf (3, 4) 1 rngHalf_mem (by norm_num) (by norm_num [dist, oFive])
    (by norm_num [dist, oFive]) (by norm_num)

/-- Helper: the Bezier sampling loop returns one point per remaining
index. -/
theorem bezLoop_length (o : Oracle) (x0 y0 x1 y1 x2 y2 den : ℚ) :
    ∀ (n i : ℕ) (r : Rng),
      (bezLoop o x0 y0 x1 y1 x2 y2 den n i r).1.length = n
  | 0, _, _ => rfl
  | n + 1, i, r => by
    unfold bezLoop
    dsimp only []
    rw [List.length_cons, bezLoop_length o x0 y0 x1 y1 x2 y2 den n (i + 1)]

/-- Helper: one Bezier sample consumes exactly three raw draws. -/
theorem bezPoint_rng (o : Oracle) (x0 y0 x1 y1 x2 y2 den : ℚ) (i : ℕ)
    (r : Rng) :
    (bezPoint o x0 y0 x1 y1 x2 y2 den i r).2 = r.advance 3 := rfl

/-- Helper: `getLast?` skips a head in front of a nonempty tail. -/
theorem getLast?_cons_of_ne_nil {α : Type} (a : α) {l : List α}
    (h : l ≠ []) : (a :: l).getLast? = l.getLast? := by
  cases l with
  | nil => exact absurd rfl h
  | cons b t => exact List.getLast?_cons_cons

/-- Helper: head of the Bezier sampling loop. -/
theorem bezLoop_head (o : Oracle) (x0 y0 x1 y1 x2 y2 den : ℚ) (n i : ℕ)
    (r : Rng) :
    (bezLoop o x0 y0 x1 y1 x2 y2 den (n + 1) i r).1.head? =
      some (bezPoint o x0 y0 x1 y1 x2 y2 den i r).1 := by
  unfold bezLoop
  dsimp only []
  rfl

/-- Helper: last point of the Bezier sampling loop. -/
theorem bezLoop_getLast (o : Oracle) (x0 y0 x1 y1 x2 y2 den : ℚ) :
    ∀ (n i : ℕ) (r : Rng),
      (bezLoop o x0 y0 x1 y1 x2 y2 den (n + 1) i r).1.getLast? =
        some (bezPoint o x0 y0 x1 y1 x2 y2 den (i + n)
          (r.advance (3 * n))).1
  | 0, i, r => by
    unfold bezLoop
    dsimp only []
    rw [Nat.mul_zero, Nat.add_zero, Rng.advance_zero]
    rfl
  | n + 1, i, r => by
    unfold bezLoop
    dsimp only []
    have hne : (bezLoop o x0 y0 x1 y1 x2 y2 den (n + 1) (i + 1)
        ((bezPoint o x0 y0 x1 y1 x2 y2 den i r).2)).1 ≠ [] := by
      intro hnil
      have := bezLoop_length o x0 y0 x1 y1 x2 y2 den (n + 1) (i + 1)
        ((bezPoint o x0 y0 x1 y1 x2 y2 den i r).2)
      rw [hnil] at this
      exact Nat.noConfusion this
    rw [getLast?_cons_of_ne_nil _ hne,
      bezLoop_getLast o x0 y0 x1 y1 x2 y2 den n (i + 1),
      bezPoint_rng, Rng.advance_advance,
      show i + 1 + n = i + (n + 1) from by omega,
      show 3 + 3 * n = 3 * (n + 1) from by omega]

/-- Helper: the Bezier sample at index 0 is the rounded start point: the
parameter is `t = 0`, where the jitter window `0.8*sin(t*pi)^2` vanishes. -/
theorem bezPoint_zero (o : Oracle) (x0 y0 x1 y1 x2 y2 den : ℚ) (r : Rng)
    (hsin0 : o.sin 0 = 0) :
    (bezPoint o x0 y0 x1 y1 x2 y2 den 0 r).1 = (pyround x0, pyround y0) := by
  unfold bezPoint
  dsimp only []
  norm_num [hsin0]

/-- Helper: the Bezier sample at `t = 1` is the rounded end point: the
jitter window vanishes there because `sin(pi) = 0`. -/
theorem bezPoint_one (o : Oracle) (x0 y0 x1 y1 x2 y2 den : ℚ) (i : ℕ)
    (r : Rng) (hden : den ≠ 0) (hi : (i : ℚ) = den)
    (hsinpi : o.sin o.pi = 0) :
    (bezPoint o x0 y0 x1 y1 x2 y2 den i r).1 = (pyround x2, pyround y2) := by
  unfold bezPoint
  dsimp only []
  rw [hi, div_self hden]
  norm_num [hsinpi]

/-- C4: for `steps >= 2`, `bezier_path(start, end, steps)` succeeds and
returns exactly `steps` points, whose first element is exactly `start` and
whose last element is exactly `end` — the jitter window `0.8*sin(t*pi)^2`
is zero at `t = 0` and `t = 1`, the two properties of `math.sin` taken as
hypotheses. -/
theorem C4_bezier_endpoints (o : Oracle) (s e : ℤ × ℤ) (steps : ℤ) (r : Rng)
    (hsin0 : o.sin 0 = 0) (hsinpi : o.sin o.pi = 0) (hsteps : 2 ≤ steps) :
    ∃ pts r', bezier_path o s e steps r = some (pts, r') ∧
      (pts.length : ℤ) = steps ∧
      pts.head? = some s ∧
      pts.getLast? = some e := by
  obtain ⟨s1, s2⟩ := s
  obtain ⟨e1, e2⟩ := e
  have hne : steps ≠ 1 := by omega
  unfold bezier_path
  rw [if_neg hne]
  dsimp only []
  refine ⟨_, _, rfl, ?_, ?_, ?_⟩
  · rw [bezLoop_length]
    omega
  · have hm : steps.toNat = (steps.toNat - 1) + 1 := by omega
    rw [hm, bezLoop_head, bezPoint_zero _ _ _ _ _ _ _ _ _ hsin0,
      pyround_intCast, pyround_intCast]
  · have hm : steps.toNat = (steps.toNat - 1) + 1 := by omega
    have hden : (steps : ℚ) - 1 ≠ 0 := by
      have h2 : (2 : ℚ) ≤ (steps : ℚ) := by exact_mod_cast hsteps
      intro hc
      nlinarith
    have hi : ((steps.toNat - 1 : ℕ) : ℚ) = (steps : ℚ) - 1 := by
      have h1 : ((steps.toNat - 1 : ℕ) : ℤ) = steps - 1 := by omega
      exact_mod_cast congrArg (fun z : ℤ => (z : ℚ)) h1
    rw [hm, bezLoop_getLast, Nat.zero_add,
      bezPoint_one _ _ _ _ _ _ _ _ _ _ hden hi hsinpi,
      pyround_intCast, pyround_intCast]

/-- C4 witness: a concrete two-point path with the trivial oracle. -/
theorem C4_bezier_endpoints_witness :
    ∃ pts r', bezier_path oTriv (0, 0) (5, 7) 2 rngHalf = some (pts, r') ∧
      (pts.length : ℤ) = 2 ∧
      pts.head? = some (0, 0) ∧
      pts.getLast? = some (5, 7) :=
  C4_bezier_endpoints oTriv (0, 0) (5, 7) 2 rngHalf rfl rfl (by norm_num)

set_option maxHeartbeats 1000000 in
/-- Helper: the centered retry loop only returns points inside the margin
box whose squared distance from `(cx, cy)` is at most `RQ ^ 2`, provided
the margin is at least one pixel (absorbing the rounding of the sampled
offset) and the sampling radius `max_r` fits under `RQ` by that margin. -/
theorem centeredTry_mem (o : Oracle) (cfg : Config) (w h cx cy max_r : ℤ)
    (RQ : ℚ) (ho : PythOracle o)
    (hm1 : 1 ≤ cfg.margin) (hw : 2 * cfg.margin ≤ w) (hh : 2 * cfg.margin ≤ h)
    (hcxl : cfg.margin ≤ cx) (hcxu : cx ≤ w - cfg.margin)
    (hcyl : cfg.margin ≤ cy) (hcyu : cy ≤ h - cfg.margin)
    (hmr0 : 0 ≤ max_r)
    (hmr : 1 ≤ max_r → (max_r : ℚ) ≤ RQ - (cfg.margin : ℚ)) :
    ∀ (n : ℕ) (r : Rng), InRange01 r →
      cfg.margin ≤ (centeredTry o cfg w h cx cy max_r n r).1.1 ∧
      (centeredTry o cfg w h cx cy max_r n r).1.1 ≤ w - cfg.margin ∧
      cfg.margin ≤ (centeredTry o cfg w h cx cy max_r n r).1.2 ∧
      (centeredTry o cfg w h cx cy max_r n r).1.2 ≤ h - cfg.margin ∧
      (((centeredTry o cfg w h cx cy max_r n r).1.1 - cx : ℤ) : ℚ) ^ 2 +
        (((centeredTry o cfg w h cx cy max_r n r).1.2 - cy : ℤ) : ℚ) ^ 2 ≤
        RQ ^ 2
  | 0, r, hr => by
    refine ⟨hcxl, hcxu, hcyl, hcyu, ?_⟩
    simp only [centeredTry, sub_self, Int.cast_zero]
    simpa using sq_nonneg RQ
  | n + 1, r, hr => by
    unfold centeredTry
    dsimp only []
    split_ifs with hneq
    · -- the candidate of this try is returned
      have hr1 : InRange01 ((rand_uniform 0 (2 * o.pi) r).2) := fun k => hr k
      have hmrQ : (0 : ℚ) ≤ (max_r : ℚ) := by exact_mod_cast hmr0
      obtain ⟨hrr0, hrrM⟩ := rand_uniform_mem hmrQ hr1
      set a := (rand_uniform 0 (2 * o.pi) r).1 with ha
      set rr := (rand_uniform 0 (max_r : ℚ) ((rand_uniform 0 (2 * o.pi) r).2)).1
        with hrrdef
      have hwm : cfg.margin ≤ w - cfg.margin := by omega
      have hhm : cfg.margin ≤ h - cfg.margin := by omega
      rcases (by omega : max_r = 0 ∨ 1 ≤ max_r) with hz | hpos1
      · -- zero radius: the candidate is the center, contradicting the guard
        have hrr : rr = 0 := by
          apply le_antisymm _ hrr0
          rw [hz] at hrrM
          exact_mod_cast hrrM
        have hxeq : clampI cfg.margin (w - cfg.margin)
            (pyround ((cx : ℚ) + o.cos a * rr)) = cx := by
          rw [hrr, mul_zero, add_zero, pyround_intCast]
          exact clampI_eq_self hcxl hcxu
        have hyeq : clampI cfg.margin (h - cfg.margin)
            (pyround ((cy : ℚ) + o.sin a * rr)) = cy := by
          rw [hrr, mul_zero, add_zero, pyround_intCast]
          exact clampI_eq_self hcyl hcyu
        rw [hxeq, hyeq] at hneq
        exact absurd rfl hneq
      · -- positive radius: bound the rounded, clamped candidate
        have hRm : (max_r : ℚ) ≤ RQ - (cfg.margin : ℚ) := hmr hpos1
        have hm1Q : (1 : ℚ) ≤ (cfg.margin : ℚ) := by exact_mod_cast hm1
        have hmax1 : (1 : ℚ) ≤ (max_r : ℚ) := by exact_mod_cast hpos1
        have hRQ2 : (2 : ℚ) ≤ RQ := by linarith
        have hcs := ho a
        set c := o.cos a with hcdef
        set sV := o.sin a with hsdef
        set t := |c| + |sV| with htdef
        have ht0 : 0 ≤ t := by positivity
        have ht2 : t ^ 2 ≤ 2 := by
          have h1 := sq_nonneg (|c| - |sV|)
          have h2 : |c| ^ 2 = c ^ 2 := sq_abs c
          have h3 : |sV| ^ 2 = sV ^ 2 := sq_abs sV
          nlinarith
        have ht32 : t ≤ 3/2 := by nlinarith
        set px := pyround ((cx : ℚ) + c * rr) with hpxdef
        set py := pyround ((cy : ℚ) + sV * rr) with hpydef
        have hpx : |(px : ℚ) - ((cx : ℚ) + c * rr)| ≤ 1/2 :=
          abs_pyround_sub_le _
        have hpy : |(py : ℚ) - ((cy : ℚ) + sV * rr)| ≤ 1/2 :=
          abs_pyround_sub_le _
        have hx1 : |(px : ℚ) - (cx : ℚ)| ≤ |c| * rr + 1/2 := by
          have hsplit : (px : ℚ) - cx =
              ((px : ℚ) - ((cx : ℚ) + c * rr)) + c * rr := by ring
          calc |(px : ℚ) - (cx : ℚ)|
              = |((px : ℚ) - ((cx : ℚ) + c * rr)) + c * rr| := by rw [hsplit]
            _ ≤ |(px : ℚ) - ((cx : ℚ) + c * rr)| + |c * rr| := abs_add _ _
            _ ≤ 1/2 + |c| * rr := by
                rw [abs_mul, abs_of_nonneg hrr0]
                linarith
            _ = |c| * rr + 1/2 := by ring
        have hy1 : |(py : ℚ) - (cy : ℚ)| ≤ |sV| * rr + 1/2 := by
          have hsplit : (py : ℚ) - cy =
              ((py : ℚ) - ((cy : ℚ) + sV * rr)) + sV * rr := by ring
          calc |(py : ℚ) - (cy : ℚ)|
              = |((py : ℚ) - ((cy : ℚ) + sV * rr)) + sV * rr| := by rw [hsplit]
            _ ≤ |(py : ℚ) - ((cy : ℚ) + sV * rr)| + |sV * rr| := abs_add _ _
            _ ≤ 1/2 + |sV| * rr := by
                rw [abs_mul, abs_of_nonneg hrr0]
                linarith
            _ = |sV| * rr + 1/2 := by ring
        set x := clampI cfg.margin (w - cfg.margin) px with hxdef
        set y := clampI cfg.margin (h - cfg.margin) py with hydef
        have hxcQ : |((x : ℚ) - (cx : ℚ))| ≤ |c| * rr + 1/2 := by
          have hxc : |x - cx| ≤ |px - cx| := abs_clampI_sub_le hcxl hcxu px
          have hcast : ((|x - cx| : ℤ) : ℚ) ≤ ((|px - cx| : ℤ) : ℚ) := by
            exact_mod_cast hxc
          rw [Int.cast_abs, Int.cast_abs] at hcast
          push_cast at hcast
          exact le_trans hcast hx1
        have hycQ : |((y : ℚ) - (cy : ℚ))| ≤ |sV| * rr + 1/2 := by
          have hyc : |y - cy| ≤ |py - cy| := abs_clampI_sub_le hcyl hcyu py
          have hcast : ((|y - cy| : ℤ) : ℚ) ≤ ((|py - cy| : ℤ) : ℚ) := by
            exact_mod_cast hyc
          rw [Int.cast_abs, Int.cast_abs] at hcast
          push_cast at hcast
          exact le_trans hcast hy1
        have hx2 : ((x : ℚ) - (cx : ℚ)) ^ 2 ≤ (|c| * rr + 1/2) ^ 2 := by
          have hb := pow_le_pow_left₀ (abs_nonneg ((x : ℚ) - (cx : ℚ))) hxcQ 2
          rwa [sq_abs] at hb
        have hy2 : ((y : ℚ) - (cy : ℚ)) ^ 2 ≤ (|sV| * rr + 1/2) ^ 2 := by
          have hb := pow_le_pow_left₀ (abs_nonneg ((y : ℚ) - (cy : ℚ))) hycQ 2
          rwa [sq_abs] at hb
        refine ⟨le_clampI _ _ _, clampI_le hwm _, le_clampI _ _ _,
          clampI_le hhm _, ?_⟩
        show ((x - cx : ℤ) : ℚ) ^ 2 + ((y - cy : ℤ) : ℚ) ^ 2 ≤ RQ ^ 2
        have habs2 : |c| ^ 2 + |sV| ^ 2 = 1 := by
          rw [sq_abs, sq_abs]
          exact hcs
        have hone : rr ≤ RQ - 1 := by linarith [le_trans hrrM hRm]
        have hRQ1 : (0 : ℚ) ≤ RQ - 1 := by linarith
        have hsq : rr ^ 2 ≤ (RQ - 1) ^ 2 := pow_le_pow_left₀ hrr0 hone 2
        have hta : rr * t ≤ (RQ - 1) * t := mul_le_mul_of_nonneg_right hone ht0
        have htb : (RQ - 1) * t ≤ (RQ - 1) * (3/2) :=
          mul_le_mul_of_nonneg_left ht32 hRQ1
        have hcast2 : ((x - cx : ℤ) : ℚ) = (x : ℚ) - (cx : ℚ) := by push_cast; ring
        have hcast3 : ((y - cy : ℤ) : ℚ) = (y : ℚ) - (cy : ℚ) := by push_cast; ring
        rw [hcast2, hcast3]
        calc ((x : ℚ) - (cx : ℚ)) ^ 2 + ((y : ℚ) - (cy : ℚ)) ^ 2
            ≤ (|c| * rr + 1/2) ^ 2 + (|sV| * rr + 1/2) ^ 2 := by linarith
          _ = rr ^ 2 * (|c| ^ 2 + |sV| ^ 2) + rr * t + 1/2 := by
              rw [htdef]
              ring
          _ = rr ^ 2 + rr * t + 1/2 := by rw [habs2]; ring
          _ ≤ RQ ^ 2 := by
              have hfin : (RQ - 1) ^ 2 + (RQ - 1) * (3/2) + 1/2 ≤ RQ ^ 2 := by
                nlinarith [hRQ2]
              clear_value t
              clear_value rr
              linarith [hsq, hta, htb, hfin]
    · -- this try failed the center guard: recurse
      exact centeredTry_mem o cfg w h cx cy max_r RQ ho hm1 hw hh hcxl hcxu
        hcyl hcyu hmr0 hmr n _ (fun k => hr k)

/-- C5 amended: in centered mode with `1 <= margin <= width/2, height/2`,
`choose_point` returns a point within the margins in both axes whose
squared Euclidean distance from the integer screen center
`(width // 2, height // 2)` is at most
`(min(width, height)/2 * center_fraction)^2`; the one-pixel margin absorbs
the rounding of the sampled offset.  (With `margin = 0`, allowed by the
original claim, rounding can push the point one pixel past the allowed
radius: see the counterexample.) -/
theorem C5_centered_point (o : Oracle) (cfg : Config) (env : Env) (r : Rng)
    (ho : PythOracle o) (hr : InRange01 r)
    (hc : cfg.centered = true) (hm1 : 1 ≤ cfg.margin)
    (hw : 2 * cfg.margin ≤ env.width) (hh : 2 * cfg.margin ≤ env.height) :
    cfg.margin ≤ (choose_point o cfg env r).1.1 ∧
    (choose_point o cfg env r).1.1 ≤ env.width - cfg.margin ∧
    cfg.margin ≤ (choose_point o cfg env r).1.2 ∧
    (choose_point o cfg env r).1.2 ≤ env.height - cfg.margin ∧
    (((choose_point o cfg env r).1.1 - Int.fdiv env.width 2 : ℤ) : ℚ) ^ 2 +
      (((choose_point o cfg env r).1.2 - Int.fdiv env.height 2 : ℤ) : ℚ) ^ 2 ≤
      (((min env.width env.height : ℤ) : ℚ) / 2 * cfg.center_fraction) ^ 2 := by
  have hcp : choose_point o cfg env r =
      centeredTry o cfg env.width env.height
        (Int.fdiv env.width 2) (Int.fdiv env.height 2)
        (max 0 (pytrunc (((min env.width env.height : ℤ) : ℚ) / 2 *
          cfg.center_fraction) - cfg.margin)) 40 r := by
    unfold choose_point
    rw [hc, if_pos rfl]
  have hfx : Int.fdiv env.width 2 = env.width / 2 :=
    Int.fdiv_eq_ediv _ (by norm_num)
  have hfy : Int.fdiv env.height 2 = env.height / 2 :=
    Int.fdiv_eq_ediv _ (by norm_num)
  have hcxl : cfg.margin ≤ Int.fdiv env.width 2 := by rw [hfx]; omega
  have hcxu : Int.fdiv env.width 2 ≤ env.width - cfg.margin := by
    rw [hfx]
    omega
  have hcyl : cfg.margin ≤ Int.fdiv env.height 2 := by rw [hfy]; omega
  have hcyu : Int.fdiv env.height 2 ≤ env.height - cfg.margin := by
    rw [hfy]
    omega
  have hmr : 1 ≤ max 0 (pytrunc (((min env.width env.height : ℤ) : ℚ) / 2 *
        cfg.center_fraction) - cfg.margin) →
      ((max 0 (pytrunc (((min env.width env.height : ℤ) : ℚ) / 2 *
        cfg.center_fraction) - cfg.margin) : ℤ) : ℚ) ≤
      ((min env.width env.height : ℤ) : ℚ) / 2 * cfg.center_fraction -
        (cfg.margin : ℚ) := by
    intro h1
    set RQ : ℚ := ((min env.width env.height : ℤ) : ℚ) / 2 *
      cfg.center_fraction with hRQdef
    rcases le_or_lt (pytrunc RQ - cfg.margin) 0 with hX | hX
    · rw [max_eq_left hX] at h1
      omega
    · rw [max_eq_right hX.le]
      rcases le_or_lt 0 RQ with hR0 | hR0
      · have := pytrunc_le_of_nonneg hR0
        push_cast
        linarith
      · have := pytrunc_nonpos_of_neg hR0
        omega
  rw [hcp]
  exact centeredTry_mem o cfg env.width env.height
    (Int.fdiv env.width 2) (Int.fdiv env.height 2) _ _ ho hm1 hw hh
    hcxl hcxu hcyl hcyu (le_max_left _ _) hmr 40 r hr

/-- Oracle for the C5 counterexample: a constant direction `(3/5, 4/5)` on
the unit circle. -/
def oCE : Oracle := ⟨fun _ => 4/5, fun _ => 3/5, fun _ _ => 0, 0⟩

/-- Configuration for the C5 counterexample: margin 0 and a 2/5 center
fraction. -/
def cfgCE : Config := { margin := 0, center_fraction := 2/5 }

/-- A 10 x 10 screen with the cursor at its center. -/
def envCE : Env := ⟨10, 10, 5, 5, 0⟩

/-- Constant raw stream 19/20, within `random.random()`'s range `[0, 1)`. -/
def rngCE : Rng := ⟨fun _ => 19/20, 0⟩

/-- Helper: one-step unfolding of the centered retry loop. -/
theorem centeredTry_succ (o : Oracle) (cfg : Config) (w h cx cy max_r : ℤ)
    (n : ℕ) (r : Rng) :
    centeredTry o cfg w h cx cy max_r (n + 1) r =
      (if (clampI cfg.margin (w - cfg.margin)
            (pyround ((cx : ℚ) + o.cos ((rand_uniform 0 (2 * o.pi) r).1) *
              (rand_uniform 0 (max_r : ℚ)
                ((rand_uniform 0 (2 * o.pi) r).2)).1)),
          clampI cfg.margin (h - cfg.margin)
            (pyround ((cy : ℚ) + o.sin ((rand_uniform 0 (2 * o.pi) r).1) *
              (rand_uniform 0 (max_r : ℚ)
                ((rand_uniform 0 (2 * o.pi) r).2)).1))) ≠ (cx, cy)
       then ((clampI cfg.margin (w - cfg.margin)
            (pyround ((cx : ℚ) + o.cos ((rand_uniform 0 (2 * o.pi) r).1) *
              (rand_uniform 0 (max_r : ℚ)
                ((rand_uniform 0 (2 * o.pi) r).2)).1)),
          clampI cfg.margin (h - cfg.margin)
            (pyround ((cy : ℚ) + o.sin ((rand_uniform 0 (2 * o.pi) r).1) *
              (rand_uniform 0 (max_r : ℚ)
                ((rand_uniform 0 (2 * o.pi) r).2)).1))),
          (rand_uniform 0 (max_r : ℚ) ((rand_uniform 0 (2 * o.pi) r).2)).2)
       else centeredTry o cfg w h cx cy max_r n
         ((rand_uniform 0 (max_r : ℚ) ((rand_uniform 0 (2 * o.pi) r).2)).2)) :=
  rfl

/-- C5 counterexample: with `margin = 0` — allowed by the claim's
hypotheses `margin <= width/2`, `margin <= height/2` — on a 10 x 10
screen with `center_fraction = 2/5` (allowed radius 2 around the center
`(5, 5)`), the sampled offset `(1.14, 1.52)` rounds to `(6, 7)`, whose
distance from the center is `sqrt 5 > 2`: pixel rounding exceeds the
allowed radius when no margin absorbs it. -/
theorem C5_counterexample :
    PythOracle oCE ∧ InRange01 rngCE ∧ cfgCE.centered = true ∧
    2 * cfgCE.margin ≤ envCE.width ∧ 2 * cfgCE.margin ≤ envCE.height ∧
    (choose_point oCE cfgCE envCE rngCE).1 = (6, 7) ∧
    ¬ ((((choose_point oCE cfgCE envCE rngCE).1.1 -
          Int.fdiv envCE.width 2 : ℤ) : ℚ) ^ 2 +
        (((choose_point oCE cfgCE envCE rngCE).1.2 -
          Int.fdiv envCE.height 2 : ℤ) : ℚ) ^ 2 ≤
        (((min envCE.width envCE.height : ℤ) : ℚ) / 2 *
          cfgCE.center_fraction) ^ 2) := by
  have hfd : Int.fdiv (10 : ℤ) 2 = 5 := by
    rw [Int.fdiv_eq_ediv _ (by norm_num)]
    norm_num
  have hfloor1 : ⌊(307/50 : ℚ)⌋ = 6 := by
    rw [Int.floor_eq_iff]
    norm_num
  have hfloor2 : ⌊(163/25 : ℚ)⌋ = 6 := by
    rw [Int.floor_eq_iff]
    norm_num
  have hpr1 : pyround (307/50 : ℚ) = 6 := by
    unfold pyround
    rw [hfloor1]
    norm_num
  have hpr2 : pyround (163/25 : ℚ) = 7 := by
    unfold pyround
    rw [hfloor2]
    norm_num
  have hmaxr : max 0 (pytrunc (((min envCE.width envCE.height : ℤ) : ℚ) / 2 *
      cfgCE.center_fraction) - cfgCE.margin) = 2 := by
    have h2 : ((min envCE.width envCE.height : ℤ) : ℚ) / 2 *
        cfgCE.center_fraction = 2 := by
      norm_num [envCE, cfgCE]
    rw [h2]
    unfold pytrunc
    rw [if_pos (by norm_num)]
    norm_num [cfgCE]
  have hrr : (rand_uniform 0 ((2 : ℤ) : ℚ)
      ((rand_uniform 0 (2 * oCE.pi) rngCE).2)).1 = 19/10 := by
    norm_num [rand_uniform, Rng.next, rngCE, oCE]
  have hcx : (5 : ℚ) + oCE.cos ((rand_uniform 0 (2 * oCE.pi) rngCE).1) *
      (19/10) = 307/50 := by
    norm_num [oCE]
  have hcy : (5 : ℚ) + oCE.sin ((rand_uniform 0 (2 * oCE.pi) rngCE).1) *
      (19/10) = 163/25 := by
    norm_num [oCE]
  have hrun : (choose_point oCE cfgCE envCE rngCE).1 = (6, 7) := by
    unfold choose_point
    rw [show cfgCE.centered = true from rfl, if_pos rfl]
    dsimp only []
    rw [show envCE.width = 10 from rfl, show envCE.height = 10 from rfl] at hmaxr ⊢
    rw [hfd, hmaxr, show (40 : ℕ) = 39 + 1 from rfl, centeredTry_succ]
    rw [show ((5 : ℤ) : ℚ) = (5 : ℚ) from by norm_num] at *
    rw [hrr, hcx, hcy, hpr1, hpr2]
    rw [show cfgCE.margin = 0 from rfl]
    rw [show clampI 0 (10 - 0) 6 = 6 from by norm_num [clampI],
      show clampI 0 (10 - 0) 7 = 7 from by norm_num [clampI]]
    rw [if_pos (by norm_num)]
  refine ⟨fun θ => by norm_num [oCE], fun n => by norm_num [rngCE], rfl,
    by norm_num [cfgCE, envCE], by norm_num [cfgCE, envCE], hrun, ?_⟩
  rw [hrun]
  norm_num [cfgCE, envCE, hfd]

/-- Oracle for the C5 witness: constant direction `(1, 0)`. -/
def oUnit : Oracle := ⟨fun _ => 0, fun _ => 1, fun _ _ => 0, 0⟩

/-- C5 witness: the default configuration (margin 40, fraction 4/5,
centered) on a 1920 x 1080 screen. -/
theorem C5_centered_point_witness :
    (40 : ℤ) ≤ (choose_point oUnit {} ⟨1920, 1080, 960, 540, 0⟩ rngHalf).1.1 ∧
    (choose_point oUnit {} ⟨1920, 1080, 960, 540, 0⟩ rngHalf).1.1 ≤
      1920 - 40 ∧
    (40 : ℤ) ≤ (choose_point oUnit {} ⟨1920, 1080, 960, 540, 0⟩ rngHalf).1.2 ∧
    (choose_point oUnit {} ⟨1920, 1080, 960, 540, 0⟩ rngHalf).1.2 ≤
      1080 - 40 ∧
    (((choose_point oUnit {} ⟨1920, 1080, 960, 540, 0⟩ rngHalf).1.1 -
        Int.fdiv 1920 2 : ℤ) : ℚ) ^ 2 +
      (((choose_point oUnit {} ⟨1920, 1080, 960, 540, 0⟩ rngHalf).1.2 -
        Int.fdiv 1080 2 : ℤ) : ℚ) ^ 2 ≤
      (((min (1920 : ℤ) 1080 : ℤ) : ℚ) / 2 * (4/5)) ^ 2 :=
  C5_centered_point oUnit {} ⟨1920, 1080, 960, 540, 0⟩ rngHalf
    (fun θ => by norm_num [oUnit]) rngHalf_mem rfl (by norm_num) (by norm_num)
    (by norm_num)

/-- Tokenizing an all-whitespace line yields no parts. -/
theorem promptTokens_of_strip_empty {raw : String} (h : pyStrip raw = "") :
    promptTokens raw = [] := by
  unfold promptTokens
  rw [h]
  rfl

/-- Helper: an accepted `promptParse` outcome has positive, ordered
bounds. -/
theorem promptParse_accepted (pf : String → Option ℚ) (parts : List String)
    {lo hi : ℚ}
    (h : promptParse pf parts = PromptOut.ret true lo hi) :
    0 < lo ∧ lo ≤ hi := by
  unfold promptParse at h
  split_ifs at h with h1 h2
  · split at h
    · simp at h
    · split_ifs at h with hneg
      obtain ⟨rfl, rfl⟩ := h
      exact ⟨lt_of_not_le hneg, le_refl _⟩
  · split at h
    · split_ifs at h with hneg hord
      · obtain ⟨rfl, rfl⟩ := h
        push_neg at hneg
        exact ⟨hneg.1, hord⟩
      · obtain ⟨-, rfl, rfl⟩ := h
        push_neg at hneg
        exact ⟨hneg.2, (not_le.1 hord).le⟩
    · simp at h

/-- Helper: a line that `prompt_for_interval` accepts yields positive,
ordered bounds. -/
theorem promptStep_accepted (pf : String → Option ℚ) (m0 M0 : ℚ)
    (raw : String) {lo hi : ℚ}
    (h : promptStep pf m0 M0 raw = PromptOut.ret true lo hi) :
    0 < lo ∧ lo ≤ hi := by
  unfold promptStep at h
  split_ifs at h with hemp
  · simp at h
  · exact promptParse_accepted pf (promptTokens raw) h

/-- Helper: whenever the prompt loop returns having accepted a value, the
resulting bounds are positive and ordered. -/
theorem prompt_for_interval_accepted (pf : String → Option ℚ)
    (inputs : List String) (m0 M0 : ℚ) {lo hi : ℚ}
    (h : prompt_for_interval pf inputs m0 M0 = (true, lo, hi)) :
    0 < lo ∧ lo ≤ hi := by
  induction inputs with
  | nil => simp [prompt_for_interval] at h
  | cons ln rest ih =>
    unfold prompt_for_interval at h
    rcases hs : promptStep pf m0 M0 ln with ⟨acc, l2, h2⟩ | _ <;> rw [hs] at h
    · obtain ⟨rfl, rfl, rfl⟩ := by simpa only [Prod.mk.injEq] using h
      exact promptStep_accepted pf m0 M0 ln hs
    · exact ih h

/-- C10: whenever `prompt_for_interval` returns after accepting a value,
`0 < min_sleep <= max_sleep`; a single accepted positive number sets both
bounds to itself, and two positive numbers are accepted in either order
and sorted. -/
theorem C10_prompt_interval (pf : String → Option ℚ) :
    (∀ (inputs : List String) (m0 M0 lo hi : ℚ),
        prompt_for_interval pf inputs m0 M0 = (true, lo, hi) →
        0 < lo ∧ lo ≤ hi) ∧
    (∀ (m0 M0 : ℚ) (raw t : String) (v : ℚ),
        promptTokens raw = [t] → pf t = some v → 0 < v →
        promptStep pf m0 M0 raw = PromptOut.ret true v v) ∧
    (∀ (m0 M0 : ℚ) (raw t1 t2 : String) (a b : ℚ),
        promptTokens raw = [t1, t2] → pf t1 = some a → pf t2 = some b →
        0 < a → 0 < b →
        promptStep pf m0 M0 raw = PromptOut.ret true (min a b) (max a b)) := by
  refine ⟨fun inputs m0 M0 lo hi h =>
    prompt_for_interval_accepted pf inputs m0 M0 h, ?_, ?_⟩
  · intro m0 M0 raw t v hts hv hpos
    have hemp : ¬ pyStrip raw = "" := by
      intro he
      rw [promptTokens_of_strip_empty he] at hts
      exact List.noConfusion hts
    unfold promptStep promptParse
    rw [if_neg hemp, hts]
    rw [if_pos (show [t].length = 1 from rfl),
      show ([t].getD 0 "") = t from rfl, hv]
    show (if v ≤ 0 then PromptOut.again else PromptOut.ret true v v) =
      PromptOut.ret true v v
    rw [if_neg (not_le.2 hpos)]
  · intro m0 M0 raw t1 t2 a b hts hv1 hv2 hpa hpb
    have hemp : ¬ pyStrip raw = "" := by
      intro he
      rw [promptTokens_of_strip_empty he] at hts
      exact List.noConfusion hts
    unfold promptStep promptParse
    rw [if_neg hemp, hts]
    rw [if_neg (show ¬[t1, t2].length = 1 by simp),
      if_pos (show [t1, t2].length = 2 from rfl),
      show ([t1, t2].getD 0 "") = t1 from rfl,
      show ([t1, t2].getD 1 "") = t2 from rfl, hv1, hv2]
    show (if a ≤ 0 ∨ b ≤ 0 then PromptOut.again
        else if a ≤ b then PromptOut.ret true a b
        else PromptOut.ret true b a) =
      PromptOut.ret true (min a b) (max a b)
    rw [if_neg (by push_neg; exact ⟨hpa, hpb⟩)]
    rcases le_total a b with hab | hab
    · rw [if_pos hab, min_eq_left hab, max_eq_right hab]
    · rcases lt_or_eq_of_le hab with hlt | heq
      · rw [if_neg (not_le.2 hlt), min_eq_right hab, max_eq_left hab]
      · subst heq
        simp

/-- Concrete `float()` model for the C10 witness. -/
def pfW : String → Option ℚ :=
  fun s => if s = "3" then some 3 else if s = "7" then some 7 else none

/-- C10 witness: the single-number line "5" is rejected by `pfW` so the
loop moves on to "3-7", which is accepted and sorted. -/
theorem C10_prompt_interval_witness :
    (0 < (3 : ℚ) ∧ (3 : ℚ) ≤ 7) ∧
    promptStep pfW 3 12 "3-7" = PromptOut.ret true (min (3:ℚ) 7) (max (3:ℚ) 7) :=
  ⟨(C10_prompt_interval pfW).1 ["3-7"] 3 12 3 7 (by decide),
   (C10_prompt_interval pfW).2.2 3 12 "3-7" "3" "7" 3 7 (by decide) (by decide)
     (by decide) (by norm_num) (by norm_num)⟩

end AntiAfk
